import Mathlib

/-!
Verification development for the incremental tool-call extraction engine of
the mcp-extension repository.  The definitions below are shallow embeddings of
the TypeScript sources:

* `ToolCallParser` — `src/content/tool-parser.ts` (the `ToolCallParser` class:
  `parseMessage`, `parseXMLFormat`, `parseInvokeBlocks`, `parseJSONFormat`,
  `parseValue`, `generateId`).  The mutable `idCounter` field and the
  `Date.now()` call are made explicit: every function takes the current
  timestamp `now` and the counter value and returns the new counter.
* `JsonFunctionParser` — `src/parsers/jsonFunctionParser.ts`
  (`parseJSONLine`, `stripLanguageTags`, `reconstructJSONObjects`,
  `containsJSONFunctionCalls`, `extractJSONFunctionInfo`,
  `extractJSONParameters`).
* `FunctionParser` — `src/parsers/functionParser.ts` (`containsFunctionCalls`).
* `ContentScript` — `src/content/index.ts` (`scanForToolCalls` and the
  `processedElements` ledger).

JavaScript regular expressions are embedded as explicit scanning functions
with the same match semantics (leftmost match, lazy/greedy quantifiers as in
the original pattern, `g`-flag iteration resuming after each match).
`JSON.parse` is embedded as a total function into `Option Json`; `none`
models a thrown `SyntaxError`.  DOM elements are modelled by their text
content; the `WeakSet` ledger by a list of element identifiers.
-/

namespace MCPE

/-! ### Character and substring utilities -/

/-- JS `\s` restricted to the ASCII whitespace the inputs use. -/
def isWs (c : Char) : Bool := c = ' ' ∨ c = '\t' ∨ c = '\n' ∨ c = '\r'

/-- Number of leading whitespace characters (the maximal run matched by a
greedy `\s*`). -/
def wsCount (cs : List Char) : Nat := (cs.takeWhile isWs).length

/-- Drop the maximal leading whitespace run. -/
def skipWs (cs : List Char) : List Char := cs.dropWhile isWs

/-- Index of the first occurrence of `pat` in `hay`, if any. -/
def firstIdxOfSub (hay pat : List Char) : Option Nat :=
  match hay with
  | [] => if pat = [] then some 0 else none
  | _ :: tl =>
    if pat.isPrefixOf hay then some 0
    else (firstIdxOfSub tl pat).map (· + 1)

/-- JS `String.prototype.includes`. -/
def containsSub (s pat : String) : Bool := (firstIdxOfSub s.data pat.data).isSome

/-- `lit.isPrefixOf cs`, returning the remainder on success. -/
def litAt (lit : List Char) (cs : List Char) : Option (List Char) :=
  if lit.isPrefixOf cs then some (cs.drop lit.length) else none

/-- Number of occurrences of a character (JS `(s.match(/x/g) || []).length`). -/
def countChar (s : String) (c : Char) : Nat := s.data.countP (· = c)

/-- Case-insensitive prefix test on ASCII letters, returning the remainder. -/
def litAtCI (lit : List Char) (cs : List Char) : Option (List Char) :=
  match lit, cs with
  | [], _ => some cs
  | _ :: _, [] => none
  | l :: ls, c :: cs' => if l.toLower = c.toLower then litAtCI ls cs' else none

/-- JS `String.prototype.trim` (the ASCII whitespace fragment the inputs
use). -/
def jsTrim (s : String) : String :=
  String.mk (((s.data.dropWhile isWs).reverse.dropWhile isWs).reverse)

/-- `text.split('\n')` on the underlying character list. -/
def splitNl (cs : List Char) : List (List Char) :=
  match cs with
  | [] => [[]]
  | c :: rest =>
    if c = '\n' then [] :: splitNl rest
    else
      match splitNl rest with
      | p :: ps => (c :: p) :: ps
      | [] => [[c]]

/-- `text.split('\n')`. -/
def jsLines (s : String) : List String := (splitNl s.data).map String.mk

/-- JS `String.prototype.startsWith`. -/
def strStartsWith (s pre : String) : Bool := pre.data.isPrefixOf s.data

/-- JS `String.prototype.endsWith`. -/
def strEndsWith (s suf : String) : Bool := suf.data.isSuffixOf s.data

/-- Index-passing `map` (used to re-attach braces after a split). -/
def mapIdxFrom {α β : Type} (f : Nat → α → β) : Nat → List α → List β
  | _, [] => []
  | i, a :: as => f i a :: mapIdxFrom f (i + 1) as

/-! ### JSON values and `JSON.parse`

`Json.num m k` denotes the number `m / 10^k`; integers have `k = 0`.  The
parser accepts the JSON grammar fragment the protocol uses (objects, arrays,
strings with the standard escapes, integer/fraction/exponent numerals,
`true`, `false`, `null`). -/

inductive Json where
  | null : Json
  | bool (b : Bool) : Json
  | num (mant : Int) (scale : Nat) : Json
  | str (s : String) : Json
  | arr (elems : List Json) : Json
  | obj (fields : List (String × Json)) : Json

/-- JS property read on a parsed JSON value: the last binding wins when a key
is duplicated (as `JSON.parse` keeps the last duplicate).  Reads on
non-objects yield `undefined` (`none`). -/
def Json.getField : Json → String → Option Json
  | .obj fields, k => (fields.reverse.find? (·.1 = k)).map (·.2)
  | _, _ => none

/-- JS truthiness of a field read (`undefined`, `null`, `false`, `0`, `""`
are falsy). -/
def truthy : Option Json → Bool
  | none => false
  | some .null => false
  | some (.bool b) => b
  | some (.num m _) => m ≠ 0
  | some (.str s) => s ≠ ""
  | some (.arr _) => true
  | some (.obj _) => true

/-- The field read when the protocol expects a nonempty string (the model
restricts the truthy check to JSON strings; the TypeScript interfaces type
these fields as `string`). -/
def strField (j : Json) (k : String) : Option String :=
  match j.getField k with
  | some (.str s) => if s = "" then none else some s
  | _ => none

/-- Decimal digits of a natural number (fuel-based so that it reduces). -/
def natDigitsAux : Nat → Nat → List Char
  | 0, _ => []
  | fuel + 1, n =>
    if n < 10 then [Char.ofNat (48 + n)]
    else natDigitsAux fuel (n / 10) ++ [Char.ofNat (48 + n % 10)]

/-- Decimal digits of a natural number. -/
def natDigits (n : Nat) : List Char := natDigitsAux (n + 1) n

/-- Decimal rendering of an integer (JS number-to-string for integers). -/
def intStr (i : Int) : String :=
  if i < 0 then String.mk ('-' :: natDigits i.natAbs) else String.mk (natDigits i.natAbs)

/-- One JSON string character: ordinary char or escape.  Returns the decoded
character(s) and the remainder, or `none` on a malformed escape / raw control
character / end of input. -/
def parseStrChar : List Char → Option (Char × List Char)
  | [] => none
  | '\\' :: e :: rest =>
    match e with
    | '"' => some ('"', rest)
    | '\\' => some ('\\', rest)
    | '/' => some ('/', rest)
    | 'b' => some ('\x08', rest)
    | 'f' => some ('\x0c', rest)
    | 'n' => some ('\n', rest)
    | 'r' => some ('\r', rest)
    | 't' => some ('\t', rest)
    | 'u' =>
      match rest with
      | h1 :: h2 :: h3 :: h4 :: rest' =>
        let hv (c : Char) : Option Nat :=
          if '0' ≤ c ∧ c ≤ '9' then some (c.toNat - 48)
          else if 'a' ≤ c ∧ c ≤ 'f' then some (c.toNat - 87)
          else if 'A' ≤ c ∧ c ≤ 'F' then some (c.toNat - 55)
          else none
        match hv h1, hv h2, hv h3, hv h4 with
        | some a, some b, some c, some d =>
          some (Char.ofNat (((a * 16 + b) * 16 + c) * 16 + d), rest')
        | _, _, _, _ => none
      | _ => none
    | _ => none
  | '\\' :: [] => none
  | c :: rest => if c.toNat < 32 ∨ c = '"' then none else some (c, rest)

/-- Body of a JSON string literal after the opening quote, up to and past the
closing quote. -/
def parseStrBody (fuel : Nat) (cs : List Char) : Option (List Char × List Char) :=
  match fuel with
  | 0 => none
  | fuel + 1 =>
    match cs with
    | '"' :: rest => some ([], rest)
    | _ =>
      match parseStrChar cs with
      | none => none
      | some (c, rest) =>
        match parseStrBody fuel rest with
        | none => none
        | some (body, rest') => some (c :: body, rest')

/-- A run of decimal digits with its value. -/
def parseDigits (cs : List Char) : Nat × Nat × List Char :=
  match cs with
  | c :: rest =>
    if '0' ≤ c ∧ c ≤ '9' then
      let (v, n, rest') := parseDigits rest
      ((c.toNat - 48) * 10 ^ n + v, n + 1, rest')
    else (0, 0, cs)
  | [] => (0, 0, [])

/-- JSON numeral: optional sign, digits, optional fraction, optional
exponent.  Result is `(mantissa, scale)` with value `mantissa / 10^scale`. -/
def parseNumber (cs : List Char) : Option (Int × Nat × List Char) :=
  let (neg, cs₁) := match cs with
    | '-' :: rest => (true, rest)
    | _ => (false, cs)
  let (iv, icount, cs₂) := parseDigits cs₁
  if icount = 0 then none else
  let (fv, fcount, cs₃) := match cs₂ with
    | '.' :: rest =>
      let (v, n, r) := parseDigits rest
      (v, n, if n = 0 then cs₂ else r)
    | _ => (0, 0, cs₂)
  if cs₂ ≠ cs₃ ∧ fcount = 0 then none else
  let mant : Nat := iv * 10 ^ fcount + fv
  let signed : Int := if neg then -(mant : Int) else (mant : Int)
  match cs₃ with
  | e :: rest =>
    if e = 'e' ∨ e = 'E' then
      let (eneg, rest₁) := match rest with
        | '-' :: r => (true, r)
        | '+' :: r => (false, r)
        | _ => (false, rest)
      let (ev, ecount, rest₂) := parseDigits rest₁
      if ecount = 0 then none
      else if eneg then some (signed, fcount + ev, rest₂)
      else if ev ≥ fcount then some (signed * 10 ^ (ev - fcount), 0, rest₂)
      else some (signed, fcount - ev, rest₂)
    else some (signed, fcount, cs₃)
  | [] => some (signed, fcount, cs₃)

mutual

/-- One JSON value (no leading whitespace). -/
def parseVal (fuel : Nat) (cs : List Char) : Option (Json × List Char) :=
  match fuel with
  | 0 => none
  | fuel + 1 =>
    match cs with
    | 'n' :: _ => (litAt "null".data cs).map (fun r => (Json.null, r))
    | 't' :: _ => (litAt "true".data cs).map (fun r => (Json.bool true, r))
    | 'f' :: _ => (litAt "false".data cs).map (fun r => (Json.bool false, r))
    | '"' :: rest =>
      (parseStrBody rest.length.succ rest).map (fun p => (Json.str (String.mk p.1), p.2))
    | '[' :: rest =>
      match skipWs rest with
      | ']' :: rest' => some (Json.arr [], rest')
      | other => (parseArrItems fuel other).map (fun p => (Json.arr p.1, p.2))
    | '{' :: rest =>
      match skipWs rest with
      | '}' :: rest' => some (Json.obj [], rest')
      | other => (parseObjItems fuel other).map (fun p => (Json.obj p.1, p.2))
    | _ => (parseNumber cs).map (fun p => (Json.num p.1 p.2.1, p.2.2))

/-- Array items after `[` (whitespace already skipped). -/
def parseArrItems (fuel : Nat) (cs : List Char) : Option (List Json × List Char) :=
  match fuel with
  | 0 => none
  | fuel + 1 =>
    match parseVal fuel cs with
    | none => none
    | some (v, rest) =>
      match skipWs rest with
      | ',' :: rest' =>
        (parseArrItems fuel (skipWs rest')).map (fun p => (v :: p.1, p.2))
      | ']' :: rest' => some ([v], rest')
      | _ => none

/-- Object members after `{` (whitespace already skipped). -/
def parseObjItems (fuel : Nat) (cs : List Char) : Option (List (String × Json) × List Char) :=
  match fuel with
  | 0 => none
  | fuel + 1 =>
    match cs with
    | '"' :: rest =>
      match parseStrBody rest.length.succ rest with
      | none => none
      | some (key, rest₁) =>
        match skipWs rest₁ with
        | ':' :: rest₂ =>
          match parseVal fuel (skipWs rest₂) with
          | none => none
          | some (v, rest₃) =>
            match skipWs rest₃ with
            | ',' :: rest₄ =>
              (parseObjItems fuel (skipWs rest₄)).map
                (fun p => ((String.mk key, v) :: p.1, p.2))
            | '}' :: rest₄ => some ([(String.mk key, v)], rest₄)
            | _ => none
        | _ => none
    | _ => none

end

/-- `JSON.parse`: the whole string must be a single JSON value surrounded by
optional whitespace; `none` models the thrown `SyntaxError`. -/
def Json.parse (s : String) : Option Json :=
  match parseVal (s.length + 1) (skipWs s.data) with
  | none => none
  | some (v, rest) => if skipWs rest = [] then some v else none

/-- JS object property assignment `o[k] = v`: an existing key keeps its slot,
a new key is appended. -/
def objAssign : List (String × Json) → String → Json → List (String × Json)
  | [], k, v => [(k, v)]
  | (k', v') :: rest, k, v =>
    if k' = k then (k, v) :: rest else (k', v') :: objAssign rest k v

/-- Lookup in the (duplicate-free) association lists built by `objAssign`. -/
def objLookup : List (String × Json) → String → Option Json
  | [], _ => none
  | (k', v) :: rest, k => if k' = k then some v else objLookup rest k

/-- Decimal rendering of a natural number (JS template-literal rendering of a
nonnegative integer such as `Date.now()` or the id counter). -/
def natStr (n : Nat) : String := String.mk (natDigits n)

/-! ### `ToolCallParser` (src/content/tool-parser.ts) -/

namespace ToolCallParser

/-- `format` field of `DetectedToolCall`. -/
inductive CallFormat where
  | xml : CallFormat
  | json : CallFormat
deriving DecidableEq

/-- `DetectedToolCall` (src/types/index.ts); the optional DOM `element` field
is omitted (never set by the parser). -/
structure DetectedToolCall where
  id : String
  toolName : String
  arguments : List (String × Json)
  rawText : String
  format : CallFormat

/-- `generateId`: \x22tool-call-${Date.now()}-${this.idCounter++}\x22.  Takes
the timestamp and current counter, returns the id and the incremented
counter. -/
def generateId (now c : Nat) : String × Nat :=
  ("tool-call-" ++ natStr now ++ "-" ++ natStr c, c + 1)

/-- One match of the `invoke` regex
`<invoke\s+name="([^"]+)"(?:\s+call_id="([^"]+)")?[^>]*?>([\s\S]*?)(?:<\/invoke>|$)`:
tool name (group 1), optional call id (group 2), inner content (group 3) and
the full matched text (group 0). -/
structure InvokeMatch where
  name : String
  callId : Option String
  inner : List Char
  raw : List Char

/-- One match of the `parameter` regex
`<parameter\s+name="([^"]+)">([\s\S]*?)(?:<\/parameter>|$)`. -/
structure ParamMatch where
  name : String
  value : List Char

/-- Attempt of the invoke regex at the start of `cs` (which begins with
`<invoke`): the optional `call_id` group is tried greedily, `[^>]*?>` lazily
matches up to the first `>`, the body lazily up to the first `</invoke>` or
to the end of input.  Returns the match and its length. -/
def tryInvokeAt (cs : List Char) : Option (InvokeMatch × Nat) :=
  match litAt "<invoke".data cs with
  | none => none
  | some r1 =>
    let w := wsCount r1
    if w = 0 then none else
    match litAt "name=\"".data (r1.drop w) with
    | none => none
    | some r2 =>
      let nm := r2.takeWhile (· ≠ '"')
      if nm.isEmpty then none else
      match r2.drop nm.length with
      | '"' :: r3 =>
        let core (cid : Option (List Char)) (r : List Char) : Option (InvokeMatch × Nat) :=
          match firstIdxOfSub r ['>'] with
          | none => none
          | some i =>
            let rGt := r.drop (i + 1)
            match firstIdxOfSub rGt "</invoke>".data with
            | some k =>
              let len := cs.length - (rGt.drop (k + 9)).length
              some (⟨String.mk nm, cid.map String.mk, rGt.take k, cs.take len⟩, len)
            | none => some (⟨String.mk nm, cid.map String.mk, rGt, cs⟩, cs.length)
        let cidAttempt : Option (List Char × List Char) :=
          let w2 := wsCount r3
          if w2 = 0 then none else
          match litAt "call_id=\"".data (r3.drop w2) with
          | none => none
          | some r4 =>
            let cid := r4.takeWhile (· ≠ '"')
            if cid.isEmpty then none else
            match r4.drop cid.length with
            | '"' :: r5 => some (cid, r5)
            | _ => none
        match cidAttempt with
        | some (cid, r5) =>
          match core (some cid) r5 with
          | some m => some m
          | none => core none r3
        | none => core none r3
      | _ => none

/-- `content.matchAll(invokeRegex)`: leftmost matches, resuming after each
match; a failed attempt at an occurrence of `<invoke` resumes one character
later. -/
def invokeScan (fuel : Nat) (cs : List Char) : List InvokeMatch :=
  match fuel with
  | 0 => []
  | fuel + 1 =>
    match firstIdxOfSub cs "<invoke".data with
    | none => []
    | some i =>
      let here := cs.drop i
      match tryInvokeAt here with
      | some (m, len) => m :: invokeScan fuel (here.drop len)
      | none => invokeScan fuel (cs.drop (i + 1))

/-- Attempt of the parameter regex at the start of `cs`. -/
def tryParameterAt (cs : List Char) : Option (ParamMatch × Nat) :=
  match litAt "<parameter".data cs with
  | none => none
  | some r1 =>
    let w := wsCount r1
    if w = 0 then none else
    match litAt "name=\"".data (r1.drop w) with
    | none => none
    | some r2 =>
      let nm := r2.takeWhile (· ≠ '"')
      if nm.isEmpty then none else
      match r2.drop nm.length with
      | '"' :: '>' :: r3 =>
        match firstIdxOfSub r3 "</parameter>".data with
        | some k => some (⟨String.mk nm, r3.take k⟩, cs.length - (r3.drop (k + 12)).length)
        | none => some (⟨String.mk nm, r3⟩, cs.length)
      | _ => none

/-- `parametersContent.matchAll(parameterRegex)`. -/
def parameterScan (fuel : Nat) (cs : List Char) : List ParamMatch :=
  match fuel with
  | 0 => []
  | fuel + 1 =>
    match firstIdxOfSub cs "<parameter".data with
    | none => []
    | some i =>
      let here := cs.drop i
      match tryParameterAt here with
      | some (m, len) => m :: parameterScan fuel (here.drop len)
      | none => parameterScan fuel (cs.drop (i + 1))

/-- The anchored CDATA unwrap
`paramValue.match(/^<!\[CDATA\[([\s\S]*?)\]\]>$/)` followed by `.trim()` of
the captured group; a non-matching value is returned unchanged. -/
def cdataStrip (s : String) : String :=
  let cs := s.data
  if 12 ≤ cs.length ∧ "<![CDATA[".data.isPrefixOf cs ∧
      "]]>".data.isPrefixOf (cs.drop (cs.length - 3))
  then jsTrim (String.mk ((cs.drop 9).take (cs.length - 12)))
  else s

/-- `parseValue`: `JSON.parse` with the raw string as fallback. -/
def parseValue (value : String) : Json :=
  match Json.parse value with
  | some j => j
  | none => Json.str value

/-- Body of the `parseInvokeBlocks` loop for one invoke match: the captured
`call_id` or a generated id, and the parameter map built by
`args[paramName] = parseValue(...)` (CDATA sections unwrapped). -/
def invokeMatchToCall (now c : Nat) (m : InvokeMatch) : DetectedToolCall × Nat :=
  let (callId, c') := match m.callId with
    | some s => (s, c)
    | none => generateId now c
  let args := (parameterScan m.inner.length m.inner).foldl
    (fun a p =>
      let v := jsTrim (String.mk p.value)
      objAssign a p.name (parseValue (cdataStrip v))) []
  (⟨callId, m.name, args, String.mk m.raw, CallFormat.xml⟩, c')

/-- `parseInvokeBlocks` over the content of one `function_calls` container. -/
def parseInvokeBlocks (content : List Char) (now c : Nat) :
    List DetectedToolCall × Nat :=
  (invokeScan content.length content).foldl
    (fun acc m =>
      let (call, c') := invokeMatchToCall now acc.2 m
      (acc.1 ++ [call], c'))
    ([], c)

/-- Contents captured by the global regex
`/<function_calls>([\s\S]*?)<\/function_calls>/g`. -/
def fcScan (fuel : Nat) (cs : List Char) : List (List Char) :=
  match fuel with
  | 0 => []
  | fuel + 1 =>
    match firstIdxOfSub cs "<function_calls>".data with
    | none => []
    | some i =>
      let afterOpen := (cs.drop i).drop 16
      match firstIdxOfSub afterOpen "</function_calls>".data with
      | none => []
      | some j => afterOpen.take j :: fcScan fuel (afterOpen.drop (j + 17))

/-- `parseXMLFormat`: all complete containers, else the streaming capture of
`/<function_calls>([\s\S]*?)$/` (everything after the first opening tag). -/
def parseXMLFormat (text : String) (now c : Nat) : List DetectedToolCall × Nat :=
  let cs := text.data
  let completeMatches := fcScan cs.length cs
  if completeMatches.isEmpty then
    match firstIdxOfSub cs "<function_calls>".data with
    | some i => parseInvokeBlocks ((cs.drop i).drop 16) now c
    | none => ([], c)
  else
    completeMatches.foldl
      (fun acc content =>
        let (calls, c') := parseInvokeBlocks content now acc.2
        (acc.1 ++ calls, c'))
      ([], c)

/-- State of the `parseJSONFormat` loop: emitted calls, the open
`currentCall`, and the id counter. -/
structure JsonScanState where
  calls : List DetectedToolCall
  currentCall : Option DetectedToolCall
  counter : Nat

/-- One iteration of the `parseJSONFormat` line loop.  A line not starting
with a brace is skipped; a `JSON.parse` failure is caught and skipped; the
three recognized `type`s update the state as in the source (note that a new
`function_call_start` simply overwrites `currentCall`). -/
def jsonLineStep (now : Nat) (st : JsonScanState) (line : String) : JsonScanState :=
  let trimmed := jsTrim line
  if strStartsWith trimmed "\x7b" = false then st else
  match Json.parse trimmed with
  | none => st
  | some j =>
    match j.getField "type" with
    | some (Json.str t) =>
      if t = "function_call_start" then
        match strField j "name" with
        | some nm =>
          let (id, c') := generateId now st.counter
          { st with currentCall := some ⟨id, nm, [], trimmed, CallFormat.json⟩,
                    counter := c' }
        | none => st
      else if t = "function_call_arg" then
        match st.currentCall, strField j "name", j.getField "value" with
        | some cc, some nm, some v =>
          { st with currentCall := some { cc with
              arguments := objAssign cc.arguments nm v,
              rawText := cc.rawText ++ "\n" ++ trimmed } }
        | _, _, _ => st
      else if t = "function_call_end" then
        match st.currentCall with
        | some cc =>
          { st with
              calls := st.calls ++ [{ cc with rawText := cc.rawText ++ "\n" ++ trimmed }],
              currentCall := none }
        | none => st
      else st
    | _ => st

/-- The `parseJSONFormat` line loop over `text.split('\n')`. -/
def jsonScan (text : String) (now c : Nat) : JsonScanState :=
  (jsLines text).foldl (jsonLineStep now) ⟨[], none, c⟩

/-- `parseJSONFormat`: the line loop followed by the final flush
(\x22If call wasn't closed, still add it\x22). -/
def parseJSONFormat (text : String) (now c : Nat) : List DetectedToolCall × Nat :=
  let st := jsonScan text now c
  match st.currentCall with
  | some cc =>
    if cc.toolName ≠ "" then (st.calls ++ [cc], st.counter) else (st.calls, st.counter)
  | none => (st.calls, st.counter)

/-- `parseMessage`: XML format first; the JSON format only when the XML
matcher produced nothing. -/
def parseMessage (text : String) (now c : Nat) : List DetectedToolCall × Nat :=
  let (xmlCalls, c₁) := parseXMLFormat text now c
  if xmlCalls.isEmpty then
    let (jsonCalls, c₂) := parseJSONFormat text now c₁
    (xmlCalls ++ jsonCalls, c₂)
  else (xmlCalls, c₁)

end ToolCallParser

/-! ### `jsonFunctionParser` (src/parsers/jsonFunctionParser.ts) -/

namespace JsonFunctionParser

/-- The language alternation of the two `stripLanguageTags` regexes, in the
source's alternation order (matters, as JS alternation is first-match). -/
def langList : List String :=
  ["javascript", "typescript", "markdown", "csharp", "kotlin", "python", "jsonl",
   "bash", "rust", "java", "scala", "swift", "shell", "json", "text", "perl",
   "yaml", "toml", "html", "ruby", "cpp", "php", "lua", "css", "sql", "yml",
   "ini", "xml", "ts", "js", "py", "sh", "md", "cs", "go", "rb", "c", "r"]

/-- First replace of `stripLanguageTags`:
`^```\s*(lang-alternation)?\s*` (case-insensitive), removed if present. -/
def stripFence (cs : List Char) : List Char :=
  match litAt "```".data cs with
  | none => cs
  | some r =>
    let r1 := skipWs r
    let r2 := match langList.findSome? (fun lang => litAtCI lang.data r1) with
      | some r' => r'
      | none => r1
    skipWs r2

/-- Second replace: `^(lang-alternation)(\s*copy(\s*code)?)?\s*`
(case-insensitive). -/
def stripLangCopy (cs : List Char) : List Char :=
  match langList.findSome? (fun lang => litAtCI lang.data cs) with
  | none => cs
  | some r =>
    let r1 := match litAtCI "copy".data (skipWs r) with
      | some r' =>
        match litAtCI "code".data (skipWs r') with
        | some r'' => r''
        | none => r'
      | none => r
    skipWs r1

/-- Third replace: `^[cC]opy(\s+code)?\s*` (case-insensitive). -/
def stripCopy (cs : List Char) : List Char :=
  match litAtCI "copy".data cs with
  | none => cs
  | some r =>
    let w := wsCount r
    let r1 :=
      if w = 0 then r else
      match litAtCI "code".data (r.drop w) with
      | some r' => r'
      | none => r
    skipWs r1

/-- `stripLanguageTags`: trim, then the three anchored replaces in order. -/
def stripLanguageTags (line : String) : String :=
  String.mk (stripCopy (stripLangCopy (stripFence (jsTrim line).data)))

/-- `parseJSONLine`: trim, strip language tags, `JSON.parse`, and require a
truthy string `type` field; every failure (including the `TypeError` on a
parsed `null`) yields `none`. -/
def parseJSONLine (line : String) : Option Json :=
  let trimmed := jsTrim line
  if trimmed = "" then none else
  let cleaned := stripLanguageTags trimmed
  if cleaned = "" then none else
  match Json.parse cleaned with
  | none => none
  | some j =>
    match j.getField "type" with
    | some (Json.str t) => if t = "" then none else some j
    | _ => none

/-- One step of `reconstructJSONObjects`: state is
(reconstructed, currentObject, braceDepth, inObject). -/
def reconStep (st : List String × String × Int × Bool) (line : String) :
    List String × String × Int × Bool :=
  let (recon, cur, depth, inObj) := st
  let trimmed := jsTrim line
  if trimmed = "" then st else
  let (depth', inObj') := trimmed.data.foldl
    (fun (p : Int × Bool) ch =>
      if ch = '\x7b' then (p.1 + 1, true)
      else if ch = '\x7d' then (p.1 - 1, p.2)
      else p)
    (depth, inObj)
  let cur' := cur ++ (if cur = "" then "" else " ") ++ trimmed
  if inObj' ∧ depth' = 0 then (recon ++ [cur'], "", depth', false)
  else (recon, cur', depth', inObj')

/-- `reconstructJSONObjects`: reassemble pretty-printed JSON objects by brace
depth, flushing a leftover incomplete object at the end. -/
def reconstructJSONObjects (lines : List String) : List String :=
  let (recon, cur, _, _) := lines.foldl reconStep ([], "", 0, false)
  if jsTrim cur ≠ "" then recon ++ [cur] else recon

/-- Split on the regex `\}\s*\{` (the single-line concatenated-objects
case). -/
def braceSplitAux (fuel : Nat) (cs : List Char) : List (List Char) :=
  match fuel with
  | 0 => [cs]
  | fuel + 1 =>
    match cs with
    | [] => [[]]
    | c :: rest =>
      if c = '\x7d' then
        let w := wsCount rest
        match rest.drop w with
        | '\x7b' :: rest' => [] :: braceSplitAux fuel rest'
        | _ =>
          match braceSplitAux fuel rest with
          | p :: ps => (c :: p) :: ps
          | [] => [[c]]
      else
        match braceSplitAux fuel rest with
        | p :: ps => (c :: p) :: ps
        | [] => [[c]]

/-- Re-attach the braces removed by the split (`index === 0` is checked
before `index === length - 1`, exactly as in the source). -/
def reattachBraces (parts : List (List Char)) : List String :=
  let n := parts.length
  mapIdxFrom (fun i p =>
    if i = 0 then String.mk (p ++ ['\x7d'])
    else if i = n - 1 then String.mk ('\x7b' :: p)
    else String.mk ('\x7b' :: (p ++ ['\x7d'])))
    0 parts

/-- `FunctionInfo` (src/parsers/core/types.ts). -/
structure FunctionInfo where
  hasFunctionCalls : Bool := false
  isComplete : Bool := false
  hasInvoke : Bool := false
  hasParameters : Bool := false
  hasClosingTags : Bool := false
  languageTag : Option String := none
  detectedBlockType : Option String := none
  partialTagDetected : Bool := false
  invokeName : Option String := none
  callId : Option String := none
  textContent : Option String := none
  description : Option String := none
deriving DecidableEq

/-- `JSONFunctionState` (the `lines` accumulator is omitted: it is only read
through the switch that this fold already performs). -/
structure JSONFunctionState where
  hasFunctionStart : Bool := false
  hasFunctionEnd : Bool := false
  functionName : Option String := none
  callId : Option String := none
  description : Option String := none
  parameterCount : Nat := 0

/-- `parsed.call_id?.toString() || null`.  The protocol uses string or
integer call ids; for the other JSON shapes the rendering is nominal but the
truthiness (`none` exactly for an absent or null field, or an empty string)
is faithful. -/
def toStringField (j : Json) (k : String) : Option String :=
  match j.getField k with
  | none => none
  | some Json.null => none
  | some (Json.str s) => if s = "" then none else some s
  | some (Json.num m 0) => some (intStr m)
  | some (Json.num m (k + 1)) => some (intStr m ++ "e-" ++ natStr (k + 1))
  | some (Json.bool b) => some (if b then "true" else "false")
  | some (Json.arr _) => some "(array)"
  | some (Json.obj _) => some "[object Object]"

/-- One iteration of the `containsJSONFunctionCalls` line loop; the second
component records `hasPartialJSON`. -/
def cjfcStep (st : JSONFunctionState × Bool) (line : String) :
    JSONFunctionState × Bool :=
  match parseJSONLine line with
  | none =>
    let trimmed := jsTrim line
    if strStartsWith trimmed "\x7b" ∧ ¬ strEndsWith trimmed "\x7d" then (st.1, true) else st
  | some parsed =>
    let s := st.1
    match parsed.getField "type" with
    | some (Json.str t) =>
      if t = "function_call_start" then
        ({ s with hasFunctionStart := true,
                  functionName := strField parsed "name",
                  callId := toStringField parsed "call_id" }, st.2)
      else if t = "description" then
        ({ s with description := strField parsed "text" }, st.2)
      else if t = "parameter" then
        ({ s with parameterCount := s.parameterCount + 1 }, st.2)
      else if t = "function_call_end" then
        ({ s with hasFunctionEnd := true }, st.2)
      else st
    | _ => st

/-- `containsJSONFunctionCalls`.  The DOM block is modelled by its effective
text content (`block.textContent`, or the `code` child's text when present —
both reach this function only through `.trim()`). -/
def containsJSONFunctionCalls (text : String) : FunctionInfo :=
  let content := jsTrim text
  let hasTypeField := containsSub content "\"type\"" ∨ containsSub content "'type'" ∨
    containsSub content "type:"
  let hasFunctionCall := containsSub content "function_call" ∨
    (containsSub content "\"type\"" ∧ containsSub content "function_call_") ∨
    (containsSub content "\"type\"" ∧ containsSub content "function_ca")
  let hasParameter := containsSub content "\"parameter\"" ∨
    containsSub content "'parameter'" ∨ containsSub content "parameter"
  let looksLikeJSONStart := containsSub content "\x7b\"type\"" ∨
    containsSub content "\x7b \"type\""
  if ¬ (hasTypeField ∧ (hasFunctionCall ∨ hasParameter ∨ looksLikeJSONStart)) then
    {}
  else
    let rawLines := jsLines content
    let isSingleLineFormat := rawLines.length = 1 ∧ countChar content '\x7b' > 1
    let isPrettyPrinted := rawLines.length > 1 ∧
      (containsSub content "\x7b\n" ∨ containsSub content "\x7b \n" ∨
        rawLines.any (fun l => jsTrim l = "\x7b"))
    let lines :=
      if isSingleLineFormat then
        reattachBraces (braceSplitAux content.data.length content.data)
      else if isPrettyPrinted then reconstructJSONObjects rawLines
      else rawLines
    let (st, hasPartialJSON) := lines.foldl cjfcStep ({}, false)
    if st.hasFunctionStart ∨ (hasPartialJSON ∧ looksLikeJSONStart) then
      { hasFunctionCalls := true,
        detectedBlockType := some "json",
        hasInvoke := st.hasFunctionStart,
        hasParameters := st.parameterCount > 0,
        hasClosingTags := st.hasFunctionEnd,
        isComplete := st.hasFunctionStart ∧ st.hasFunctionEnd,
        invokeName := st.functionName,
        callId := st.callId,
        textContent := st.description,
        partialTagDetected := hasPartialJSON }
    else {}

/-- Scan for the first full occurrence of `KEY\s*:\s*"([^"]+)"` for a literal
key (the `"name"` fallback regex of `extractJSONFunctionInfo`). -/
def findQuotedField (key : List Char) (fuel : Nat) (cs : List Char) : Option String :=
  match fuel with
  | 0 => none
  | fuel + 1 =>
    let attempt : Option String := do
      let r1 ← litAt key cs
      let r2 ← litAt [':'] (skipWs r1)
      let r3 ← litAt ['"'] (skipWs r2)
      let v := r3.takeWhile (· ≠ '"')
      if v.isEmpty then none else
      match r3.drop v.length with
      | '"' :: _ => some (String.mk v)
      | _ => none
    match attempt with
    | some v => some v
    | none =>
      match cs with
      | [] => none
      | _ :: rest => findQuotedField key fuel rest

/-- The `"call_id"\s*:\s*(\d+|"[^"]+")` fallback regex of
`extractJSONFunctionInfo`, with the subsequent `.replace(/"/g, '')`. -/
def findCallIdField (fuel : Nat) (cs : List Char) : Option String :=
  match fuel with
  | 0 => none
  | fuel + 1 =>
    let attempt : Option String := do
      let r1 ← litAt "\"call_id\"".data cs
      let r2 ← litAt [':'] (skipWs r1)
      let r3 := skipWs r2
      let digits := r3.takeWhile (fun c => '0' ≤ c ∧ c ≤ '9')
      if digits ≠ [] then some (String.mk digits) else
      match r3 with
      | '"' :: r4 =>
        let v := r4.takeWhile (· ≠ '"')
        if v.isEmpty then none else
        match r4.drop v.length with
        | '"' :: _ => some (String.mk v)
        | _ => none
      | _ => none
    match attempt with
    | some v => some v
    | none =>
      match cs with
      | [] => none
      | _ :: rest => findCallIdField fuel rest

/-- The `extractJSONFunctionInfo` loop (with its early exit once all three
pieces are known). -/
def ejfiLoop : List String → Option String × Option String × Option String →
    Option String × Option String × Option String
  | [], acc => acc
  | line :: rest, (fn, cid, desc) =>
    if fn.isSome ∧ cid.isSome ∧ desc.isSome then (fn, cid, desc) else
    match parseJSONLine line with
    | none =>
      let t := String.mk (stripLangCopy (jsTrim line).data)
      if strStartsWith t "\x7b" ∧ containsSub t "\"type\"" ∧
          containsSub t "function_call_start" then
        let fn' := match findQuotedField "\"name\"".data t.data.length t.data with
          | some v => some v
          | none => fn
        let cid' := match findCallIdField t.data.length t.data with
          | some v => some v
          | none => cid
        ejfiLoop rest (fn', cid', desc)
      else ejfiLoop rest (fn, cid, desc)
    | some parsed =>
      match parsed.getField "type" with
      | some (Json.str t) =>
        if t = "function_call_start" then
          ejfiLoop rest (strField parsed "name", toStringField parsed "call_id", desc)
        else if t = "description" then
          ejfiLoop rest (fn, cid, strField parsed "text")
        else ejfiLoop rest (fn, cid, desc)
      | _ => ejfiLoop rest (fn, cid, desc)

/-- `extractJSONFunctionInfo`: (functionName, callId, description). -/
def extractJSONFunctionInfo (content : String) :
    Option String × Option String × Option String :=
  ejfiLoop (jsLines content) (none, none, none)

/-- The parameter binding contributed by one line in the first pass of
`extractJSONParameters` (`parsed.value ?? ''`). -/
def paramLineEntry (line : String) : Option (String × Json) :=
  match parseJSONLine line with
  | none => none
  | some parsed =>
    match parsed.getField "type", strField parsed "key" with
    | some (Json.str t), some k =>
      if t = "parameter" then
        some (k, match parsed.getField "value" with
          | none => Json.str ""
          | some Json.null => Json.str ""
          | some v => v)
      else none
    | _, _ => none

/-- First pass of `extractJSONParameters`. -/
def extractJSONParamsFirstPass (lines : List String) : List (String × Json) :=
  lines.foldl
    (fun ps line =>
      match paramLineEntry line with
      | some (k, v) => objAssign ps k v
      | none => ps)
    []

/-- Capture of `((?:[^"\\]|\\.)*)` (greedy; `.` does not match a line
break): the captured characters and the remainder. -/
def valueMunch : List Char → List Char × List Char
  | [] => ([], [])
  | '\\' :: c :: rest =>
    if c = '\n' ∨ c = '\r' then ([], '\\' :: c :: rest)
    else
      let (v, r) := valueMunch rest
      ('\\' :: c :: v, r)
  | '\\' :: [] => ([], ['\\'])
  | '"' :: rest => ([], '"' :: rest)
  | c :: rest =>
    let (v, r) := valueMunch rest
    (c :: v, r)

/-- Greedy backtracking for `[^}]*`: try the longest skip first. -/
def descFind {β : Type} (n : Nat) (f : Nat → Option β) : Option β :=
  match n with
  | 0 => f 0
  | n + 1 =>
    match f (n + 1) with
    | some b => some b
    | none => descFind n f

/-- Attempt of the fallback `parameterPattern` regex of
`extractJSONParameters` at the start of `cs`; returns `((key, value), match
length)`. -/
def tryParamPatternAt (cs : List Char) : Option ((String × String) × Nat) := do
  let r1 ← litAt "\"type\"".data cs
  let r2 ← litAt [':'] (skipWs r1)
  let r3 ← litAt "\"parameter\"".data (skipWs r2)
  let span1 := (r3.takeWhile (· ≠ '\x7d')).length
  descFind span1 (fun j => do
    let r4 ← litAt "\"key\"".data (r3.drop j)
    let r5 ← litAt [':'] (skipWs r4)
    let r6 ← litAt ['"'] (skipWs r5)
    let key := r6.takeWhile (· ≠ '"')
    if key.isEmpty then none else
    match r6.drop key.length with
    | '"' :: r7 =>
      let span2 := (r7.takeWhile (· ≠ '\x7d')).length
      descFind span2 (fun j2 => do
        let r8 ← litAt "\"value\"".data (r7.drop j2)
        let r9 ← litAt [':'] (skipWs r8)
        let r10 ← litAt ['"'] (skipWs r9)
        let (v, rRest) := valueMunch r10
        some ((String.mk key, String.mk v), cs.length - rRest.length))
    | _ => none)

/-- `parameterPattern.exec` loop: leftmost matches, resuming after each. -/
def paramPatternScan (fuel : Nat) (cs : List Char) : List (String × String) :=
  match fuel with
  | 0 => []
  | fuel + 1 =>
    match cs with
    | [] => []
    | _ :: rest =>
      match tryParamPatternAt cs with
      | some (kv, len) => kv :: paramPatternScan fuel (cs.drop (max len 1))
      | none => paramPatternScan fuel rest

/-- Non-overlapping global replace (one `.replace(/pat/g, rep)` step). -/
def replaceAllSub (fuel : Nat) (cs pat rep : List Char) : List Char :=
  match fuel with
  | 0 => cs
  | fuel + 1 =>
    match cs with
    | [] => []
    | c :: rest =>
      if pat ≠ [] ∧ pat.isPrefixOf cs then
        rep ++ replaceAllSub fuel (cs.drop pat.length) pat rep
      else c :: replaceAllSub fuel rest pat rep

/-- The chained unescaping of the fallback pass (`\n`, `\t`, `\r`, `\"`,
`\\`, in the source's order). -/
def unescapeParamValue (s : String) : String :=
  let a := replaceAllSub s.data.length s.data ['\\', 'n'] ['\n']
  let b := replaceAllSub a.length a ['\\', 't'] ['\t']
  let c := replaceAllSub b.length b ['\\', 'r'] ['\r']
  let d := replaceAllSub c.length c ['\\', '"'] ['"']
  let e := replaceAllSub d.length d ['\\', '\\'] ['\\']
  String.mk e

/-- One step of the fallback pass of `extractJSONParameters`: a key already
present (`hasOwnProperty`) is left untouched, a new key is added with the
unescaped captured value. -/
def paramFallbackStep (ps : List (String × Json)) (kv : String × String) :
    List (String × Json) :=
  if (ps.find? (·.1 = kv.1)).isSome then ps
  else objAssign ps kv.1 (Json.str (unescapeParamValue kv.2))

/-- `extractJSONParameters`: the per-line first pass, then the regex
fallback pass which only adds keys not already present. -/
def extractJSONParameters (content : String) : List (String × Json) :=
  if content = "" then [] else
  let first := extractJSONParamsFirstPass (jsLines content)
  (paramPatternScan content.data.length content.data).foldl paramFallbackStep first

end JsonFunctionParser

/-! ### `functionParser` (src/parsers/functionParser.ts) -/

namespace FunctionParser

open JsonFunctionParser

/-- Result of `extractLanguageTag`. -/
structure LangTagResult where
  tag : Option String
  content : String
deriving DecidableEq

/-- Modelled from the spec: `extractLanguageTag` — the file
src/parsers/languageParser.ts is not among the provided sources, only its
caller is.  Per §4.1 of the specification the normalizer removes a leading
fenced-code opening with an optional language label drawn from the fixed
allow-list and an optional trailing copy / copy-code affordance phrase, or a
standalone leading copy phrase, and does not touch content after the first
non-matching token. -/
def extractLanguageTag (content : String) : LangTagResult :=
  match litAt "```".data content.data with
  | some r =>
    let r1 := skipWs r
    match langList.findSome?
        (fun lang => (litAtCI lang.data r1).map (fun r' => (lang, r'))) with
    | some (lang, r') =>
      let r2 := match litAtCI "copy".data (skipWs r') with
        | some rc =>
          match litAtCI "code".data (skipWs rc) with
          | some rcc => rcc
          | none => rc
        | none => r'
      ⟨some lang, String.mk (skipWs r2)⟩
    | none => ⟨none, String.mk r1⟩
  | none =>
    match litAtCI "copy".data content.data with
    | some r =>
      let r1 := match litAtCI "code".data (skipWs r) with
        | some rc => rc
        | none => r
      ⟨none, String.mk (skipWs r1)⟩
    | none => ⟨none, content⟩

/-- Attempt of the metadata regex
`/<invoke name="([^"]+)"(?:\s+call_id="([^"]+)")?>/` at the start of `cs`
(note: one literal space, and `>` must immediately follow). -/
def tryInvokeMetaAt (cs : List Char) : Option (String × Option String) := do
  let r1 ← litAt "<invoke name=\"".data cs
  let nm := r1.takeWhile (· ≠ '"')
  if nm.isEmpty then none else
  match r1.drop nm.length with
  | '"' :: r2 =>
    let withGroup : Option (String × Option String) :=
      let w := wsCount r2
      if w = 0 then none else
      match litAt "call_id=\"".data (r2.drop w) with
      | none => none
      | some r3 =>
        let cid := r3.takeWhile (· ≠ '"')
        if cid.isEmpty then none else
        match r3.drop cid.length with
        | '"' :: '>' :: _ => some (String.mk nm, some (String.mk cid))
        | _ => none
    match withGroup with
    | some m => some m
    | none =>
      match r2 with
      | '>' :: _ => some (String.mk nm, none)
      | _ => none
  | _ => none

/-- First match of the metadata regex (non-global `String.prototype.match`). -/
def invokeMetaScan (fuel : Nat) (cs : List Char) : Option (String × Option String) :=
  match fuel with
  | 0 => none
  | fuel + 1 =>
    match cs with
    | [] => none
    | _ :: rest =>
      match tryInvokeMetaAt cs with
      | some m => some m
      | none => invokeMetaScan fuel rest

/-- `containsFunctionCalls`: JSON detection first; otherwise the XML checks.
The `isComplete` flag of the XML branch is computed purely from the presence
of the `<function_calls>` / `</function_calls>` pair. -/
def containsFunctionCalls (text : String) : FunctionInfo :=
  let content := jsTrim text
  let jsonResult := containsJSONFunctionCalls text
  if jsonResult.hasFunctionCalls then
    { jsonResult with description := (extractJSONFunctionInfo content).2.2 }
  else if ¬ containsSub content "<" ∧ ¬ containsSub content "<function_calls>" ∧
      ¬ containsSub content "<invoke" ∧ ¬ containsSub content "</invoke>" ∧
      ¬ containsSub content "<parameter" then
    {}
  else
    let langTagResult := extractLanguageTag content
    let languageTag := langTagResult.tag
    let contentToExamine :=
      if langTagResult.content = "" then content else langTagResult.content
    if containsSub contentToExamine "<function_calls>" ∨
        containsSub contentToExamine "<invoke" then
      let hasInvoke := containsSub contentToExamine "<invoke"
      let meta :=
        if hasInvoke then
          invokeMetaScan contentToExamine.data.length contentToExamine.data
        else none
      let closed := containsSub contentToExamine "<function_calls>" ∧
        containsSub contentToExamine "</function_calls>"
      { hasFunctionCalls := true,
        detectedBlockType := some "xml",
        hasInvoke := hasInvoke,
        hasParameters := containsSub contentToExamine "<parameter",
        invokeName := meta.map (·.1),
        callId := meta.bind (·.2),
        hasClosingTags := closed,
        isComplete := closed,
        languageTag := languageTag }
    else { languageTag := languageTag }

end FunctionParser

/-! ### `scanForToolCalls` and the `processedElements` ledger
(src/content/index.ts) -/

namespace ContentScript

open ToolCallParser

/-- The content script's persistent state: the `processedElements` `WeakSet`
(elements modelled by numeric identifiers) and the shared parser's
`idCounter`. -/
structure ScanState where
  processed : List Nat
  counter : Nat

/-- Processing of one code block by `scanForToolCalls`: skip if already
processed; skip unless the text contains `<function_calls>` or `<invoke`;
otherwise parse, and when at least one call was parsed, mark the element
processed and hand every parsed call to the consumer
(`injectExecutionUIAfterCodeBlock`). -/
def scanBlock (now : Nat) (st : ScanState) (blk : Nat × String) :
    List DetectedToolCall × ScanState :=
  if blk.1 ∈ st.processed then ([], st)
  else if ¬ (containsSub blk.2 "<function_calls>" ∨ containsSub blk.2 "<invoke") then
    ([], st)
  else
    let calls := (parseMessage blk.2 now st.counter).1
    let c' := (parseMessage blk.2 now st.counter).2
    if calls.isEmpty then ([], { st with counter := c' })
    else (calls, { processed := blk.1 :: st.processed, counter := c' })

/-- One `scanForToolCalls` pass over the current code blocks, in document
order; returns all calls emitted to the consumer during the pass. -/
def scanForToolCalls (now : Nat) (st : ScanState) (blocks : List (Nat × String)) :
    List DetectedToolCall × ScanState :=
  blocks.foldl
    (fun acc blk =>
      let (calls, st') := scanBlock now acc.2 blk
      (acc.1 ++ calls, st'))
    ([], st)

/-- Successive scans of one growing buffer (code element `id`), each snapshot
with its own timestamp; returns the per-scan emission lists. -/
def runScans (id : Nat) (snaps : List (String × Nat)) (st : ScanState) :
    List (List DetectedToolCall) × ScanState :=
  match snaps with
  | [] => ([], st)
  | (text, now) :: rest =>
    let (calls, st') := scanBlock now st (id, text)
    let (out, stF) := runScans id rest st'
    (calls :: out, stF)

end ContentScript

/-! ### Concrete inputs named by the specification's scenarios and helpers
used in the theorem statements -/

/-- `true` iff every call in the list carries the XML format marker. -/
def allXml (calls : List ToolCallParser.DetectedToolCall) : Bool :=
  calls.all (fun call =>
    match call.format with
    | ToolCallParser.CallFormat.xml => true
    | ToolCallParser.CallFormat.json => false)

/-- Left-biased choice on options (used to state the last-wins lookup law). -/
def optOr {α : Type} : Option α → Option α → Option α
  | some a, _ => some a
  | none, b => b

/-- Scenario 1 input (complete XML invocation). -/
def inputXMLComplete : String :=
  "<function_calls><invoke name=\"read_file\" call_id=\"1\"><parameter name=\"path\">/tmp/test.txt</parameter></invoke></function_calls>"

/-- The substring of `inputXMLComplete` matched by the invoke regex. -/
def rawXMLComplete : String :=
  "<invoke name=\"read_file\" call_id=\"1\"><parameter name=\"path\">/tmp/test.txt</parameter></invoke>"

/-- Scenario 2 input (streaming XML invocation, closing markers absent). -/
def inputXMLStreaming : String :=
  "<function_calls><invoke name=\"read_file\" call_id=\"1\"><parameter name=\"path\">/tmp/te"

/-- The substring of `inputXMLStreaming` matched by the invoke regex
(running to the end of the buffer). -/
def rawXMLStreaming : String :=
  "<invoke name=\"read_file\" call_id=\"1\"><parameter name=\"path\">/tmp/te"

/-- A closed `function_calls` container whose `invoke` tag is never
closed. -/
def inputUnclosedInvoke : String :=
  "<function_calls><invoke name=\"t\"><parameter name=\"p\">v</parameter></function_calls>"

/-- A snapshot containing both a complete XML invocation and a complete
JSON-Lines invocation (tool `jtool`). -/
def inputMixed : String :=
  "<function_calls><invoke name=\"read_file\" call_id=\"1\"><parameter name=\"path\">/tmp/test.txt</parameter></invoke></function_calls>\n\x7b\"type\":\"function_call_start\",\"name\":\"jtool\",\"call_id\":\"9\"\x7d\n\x7b\"type\":\"function_call_end\"\x7d"

/-- A complete XML invocation without a caller-supplied `call_id`. -/
def inputNoCallId : String :=
  "<function_calls><invoke name=\"t\"><parameter name=\"p\">v</parameter></invoke></function_calls>"

/-- Scenario 4 input (three JSON-Lines, typed parameter value). -/
def inputJSONLines : String :=
  "\x7b\"type\":\"function_call_start\",\"name\":\"t\",\"call_id\":\"1\"\x7d\n\x7b\"type\":\"parameter\",\"key\":\"x\",\"value\":5\x7d\n\x7b\"type\":\"function_call_end\"\x7d"

/-- Scenario 5 input (two concatenated JSON objects on one physical line). -/
def inputConcatObjects : String :=
  "\x7b\"type\":\"function_call_start\",\"name\":\"t\"\x7d\x7b\"type\":\"function_call_end\"\x7d"

/-- Two `function_call_start` lines before a single `function_call_end`. -/
def inputTwoStarts : String :=
  "\x7b\"type\":\"function_call_start\",\"name\":\"A\"\x7d\n\x7b\"type\":\"function_call_start\",\"name\":\"B\"\x7d\n\x7b\"type\":\"function_call_end\"\x7d"

/-- A single unclosed JSON-Lines start. -/
def inputJSONStreaming : String :=
  "\x7b\"type\":\"function_call_start\",\"name\":\"t\",\"call_id\":\"1\"\x7d"

end MCPE

open MCPE MCPE.ToolCallParser MCPE.JsonFunctionParser MCPE.FunctionParser MCPE.ContentScript

set_option maxRecDepth 100000

/-! Ledger lemmas for `scanForToolCalls` (claim C1). -/

/-- A block whose element is already in the `processedElements` ledger is
skipped entirely. -/
theorem scanBlock_skip (now : Nat) (st : ScanState) (id : Nat) (text : String)
    (h : id ∈ st.processed) : scanBlock now st (id, text) = ([], st) := by
  unfold scanBlock
  simp [h]

/-- `scanForToolCalls` never removes an element from the ledger. -/
theorem scanBlock_processed_mono (now : Nat) (st : ScanState) (blk : Nat × String)
    (id : Nat) (h : id ∈ st.processed) : id ∈ (scanBlock now st blk).2.processed := by
  unfold scanBlock
  dsimp only
  split_ifs <;> first | exact h | exact List.mem_cons_of_mem _ h

/-- If a scan of a block emitted anything, the block's element is in the
ledger afterwards. -/
theorem scanBlock_emit_marks (now : Nat) (st : ScanState) (id : Nat) (text : String)
    (h : (scanBlock now st (id, text)).1 ≠ []) :
    id ∈ (scanBlock now st (id, text)).2.processed := by
  unfold scanBlock at h ⊢
  dsimp only at h ⊢
  split_ifs at h ⊢ <;>
    first | exact absurd rfl h | exact List.mem_cons_self _ _

/-- Once the element is in the ledger, every later scan of the buffer emits
nothing and the element stays in the ledger. -/
theorem runScans_skip (id : Nat) (snaps : List (String × Nat)) (st : ScanState)
    (h : id ∈ st.processed) :
    (runScans id snaps st).1.all List.isEmpty = true ∧
    id ∈ (runScans id snaps st).2.processed := by
  induction snaps generalizing st with
  | nil => exact ⟨rfl, h⟩
  | cons snap rest ih =>
    obtain ⟨text, now⟩ := snap
    unfold runScans
    rw [scanBlock_skip now st id text h]
    have := ih st h
    simp only [List.all_cons, List.isEmpty_nil, Bool.true_and]
    exact this

/-- Emissions for one buffer happen in at most one scan of the sequence. -/
theorem runScans_emissions_le_one (id : Nat) (snaps : List (String × Nat))
    (st : ScanState) :
    ((runScans id snaps st).1.countP (fun l => !l.isEmpty)) ≤ 1 := by
  induction snaps generalizing st with
  | nil => simp [runScans]
  | cons snap rest ih =>
    obtain ⟨text, now⟩ := snap
    unfold runScans
    simp only [List.countP_cons]
    by_cases hb : (scanBlock now st (id, text)).1 = []
    · rw [hb]
      simpa using ih (scanBlock now st (id, text)).2
    · have hmem := scanBlock_emit_marks now st id text hb
      have hall := (runScans_skip id rest (scanBlock now st (id, text)).2 hmem).1
      have hzero : ((runScans id rest (scanBlock now st (id, text)).2).1.countP
          (fun l => !l.isEmpty)) = 0 := by
        rw [List.countP_eq_zero]
        intro a ha
        have := (List.all_eq_true.mp hall) a ha
        simp [this]
      rw [hzero]
      split <;> simp

/-- C1: at-most-once emission.  For any sequence of scans of snapshots of the
same growing buffer: (a) once the buffer's element is in the
`processedElements` ledger, every subsequent scan emits nothing for it
(silently skipped) and the element never leaves the ledger (the emitted mark
never becomes false); (b) unconditionally, the emissions of the whole scan
sequence are concentrated in at most one scan, so each completed invocation
of the buffer is handed to the consumer at most once. -/
theorem c1_at_most_once_emission :
    (∀ (id : Nat) (snaps : List (String × Nat)) (st : ScanState),
        id ∈ st.processed →
        (runScans id snaps st).1.all List.isEmpty = true ∧
        id ∈ (runScans id snaps st).2.processed) ∧
    (∀ (id : Nat) (snaps : List (String × Nat)) (st : ScanState),
        ((runScans id snaps st).1.countP (fun l => !l.isEmpty)) ≤ 1) :=
  ⟨fun id snaps st h => runScans_skip id snaps st h,
   fun id snaps st => runScans_emissions_le_one id snaps st⟩

/-- C1 witness: the skip component applied at a concrete processed element
(the scan of a complete invocation in the same buffer emits nothing). -/
theorem c1_witness :
    (5 ∈ ([5] : List Nat)) ∧
    ((runScans 5 [(MCPE.inputXMLComplete, 0)] ⟨[5], 0⟩).1.all List.isEmpty = true ∧
      5 ∈ (runScans 5 [(MCPE.inputXMLComplete, 0)] ⟨[5], 0⟩).2.processed) :=
  ⟨by decide,
   c1_at_most_once_emission.1 5 [(MCPE.inputXMLComplete, 0)] ⟨[5], 0⟩ (by decide)⟩

/-- C9: the input
`<function_calls><invoke name="read_file" call_id="1"><parameter name="path">/tmp/test.txt</parameter></invoke></function_calls>`
parses to exactly one completed invocation with identity `"1"` (the
caller-supplied call id), tool name `read_file`, and arguments mapping
`path` to the string `/tmp/test.txt` — for every timestamp and counter
state, and without consuming a generated id (the counter is returned
unchanged). -/
theorem c9_xml_complete_extraction (now c : Nat) :
    MCPE.ToolCallParser.parseMessage MCPE.inputXMLComplete now c =
      ([⟨"1", "read_file", [("path", MCPE.Json.str "/tmp/test.txt")],
          MCPE.rawXMLComplete, MCPE.ToolCallParser.CallFormat.xml⟩], c) := by
  rfl

/-- C10: in the JSON-Lines loop of `parseJSONFormat`, a `function_call_start`
line never appends to the emitted list and wholesale-replaces the pending
`currentCall`; hence on two starts before one end, the first started call is
discarded and only the most recently started call is output. -/
theorem c10_second_start_discards_first :
    (∀ (now : Nat) (st : JsonScanState) (line : String) (j : MCPE.Json) (nm : String),
        strStartsWith (jsTrim line) "\x7b" = true →
        MCPE.Json.parse (jsTrim line) = some j →
        j.getField "type" = some (MCPE.Json.str "function_call_start") →
        MCPE.strField j "name" = some nm →
        (jsonLineStep now st line).calls = st.calls ∧
        (jsonLineStep now st line).currentCall =
          some ⟨(generateId now st.counter).1, nm, [], jsTrim line, CallFormat.json⟩) ∧
    (MCPE.ToolCallParser.parseMessage MCPE.inputTwoStarts 0 0).1.map (·.toolName) = ["B"] := by
  constructor
  · intro now st line j nm hbrace hparse htype hname
    unfold jsonLineStep
    simp only [hbrace, hparse, htype, hname, Bool.true_eq_false, if_false]
    exact ⟨rfl, rfl⟩
  · rfl

/-- C10 witness: the general part applied at a second `function_call_start`
line arriving while a call is pending. -/
theorem c10_witness :
    strStartsWith (jsTrim "\x7b\"type\":\"function_call_start\",\"name\":\"B\"\x7d") "\x7b" = true ∧
    ((jsonLineStep 0 ⟨[], some ⟨"tool-call-0-0", "A", [], "r", CallFormat.json⟩, 1⟩
        "\x7b\"type\":\"function_call_start\",\"name\":\"B\"\x7d").calls = [] ∧
      (jsonLineStep 0 ⟨[], some ⟨"tool-call-0-0", "A", [], "r", CallFormat.json⟩, 1⟩
        "\x7b\"type\":\"function_call_start\",\"name\":\"B\"\x7d").currentCall =
        some ⟨"tool-call-0-1", "B", [],
          jsTrim "\x7b\"type\":\"function_call_start\",\"name\":\"B\"\x7d",
          CallFormat.json⟩) :=
  ⟨rfl, c10_second_start_discards_first.1 0
    ⟨[], some ⟨"tool-call-0-0", "A", [], "r", CallFormat.json⟩, 1⟩
    "\x7b\"type\":\"function_call_start\",\"name\":\"B\"\x7d"
    (MCPE.Json.obj [("type", MCPE.Json.str "function_call_start"), ("name", MCPE.Json.str "B")])
    "B" rfl rfl rfl rfl⟩


/-! Lemmas for claims C2, C4 and C5. -/

/-- The final flush of `parseJSONFormat` appends the pending unclosed call. -/
theorem parseJSONFormat_flush (text : String) (now c : Nat)
    (cc : DetectedToolCall) (hcur : (jsonScan text now c).currentCall = some cc)
    (hname : cc.toolName ≠ "") :
    (parseJSONFormat text now c).1 = (jsonScan text now c).calls ++ [cc] := by
  unfold parseJSONFormat
  dsimp only
  rw [hcur]
  simp [hname]

/-- `scanForToolCalls` hands the parser's entire output to the consumer,
unfiltered, whenever it parses a fresh matching block at all. -/
theorem scanBlock_emits_parse_output (id : Nat) (text : String) (now : Nat)
    (st : ScanState) (h1 : id ∉ st.processed)
    (h2 : containsSub text "<function_calls>" = true ∨ containsSub text "<invoke" = true)
    (h3 : (parseMessage text now st.counter).1.isEmpty = false) :
    (scanBlock now st (id, text)).1 = (parseMessage text now st.counter).1 := by
  unfold scanBlock
  dsimp only
  rw [if_neg h1, if_neg (not_not_intro h2), if_neg (by simp [h3])]

/-- C2 is corrected by this pair: the trailing unclosed JSON call is included
in the parse result, and the scan emits the parse result as-is, so a
candidate lacking its closing marker is emitted to the consumer exactly like
a complete one — the engine maintains no separate completed/streaming
channels. -/
theorem c2_streaming_emitted :
    (∀ (text : String) (now c : Nat) (cc : DetectedToolCall),
        (jsonScan text now c).currentCall = some cc →
        cc.toolName ≠ "" →
        (parseJSONFormat text now c).1 = (jsonScan text now c).calls ++ [cc]) ∧
    (∀ (id : Nat) (text : String) (now : Nat) (st : ScanState),
        id ∉ st.processed →
        (containsSub text "<function_calls>" = true ∨ containsSub text "<invoke" = true) →
        (parseMessage text now st.counter).1.isEmpty = false →
        (scanBlock now st (id, text)).1 = (parseMessage text now st.counter).1) :=
  ⟨parseJSONFormat_flush, scanBlock_emits_parse_output⟩

/-- C2 counterexample: the scenario-2 streaming snapshot, whose `</invoke>`
and `</function_calls>` are absent, is nevertheless emitted to the consumer
by a fresh scan (it appears in the emission channel, which is the engine's
only output). -/
theorem c2_counterexample :
    (runScans 1 [(MCPE.inputXMLStreaming, 0)] ⟨[], 0⟩).1 =
      [[⟨"1", "read_file", [("path", MCPE.Json.str "/tmp/te")],
          MCPE.rawXMLStreaming, CallFormat.xml⟩]] ∧
    containsSub MCPE.inputXMLStreaming "</invoke>" = false ∧
    containsSub MCPE.inputXMLStreaming "</function_calls>" = false :=
  ⟨rfl, rfl, rfl⟩

/-- C2 witness: the amended statement applied at an unclosed JSON-Lines start
and at the scenario-2 streaming XML snapshot. -/
theorem c2_witness :
    ((jsonScan MCPE.inputJSONStreaming 0 0).currentCall =
       some ⟨"tool-call-0-0", "t", [], MCPE.inputJSONStreaming, CallFormat.json⟩) ∧
    ((parseJSONFormat MCPE.inputJSONStreaming 0 0).1 =
      (jsonScan MCPE.inputJSONStreaming 0 0).calls ++
        [⟨"tool-call-0-0", "t", [], MCPE.inputJSONStreaming, CallFormat.json⟩]) ∧
    (1 ∉ (ScanState.mk [] 0).processed) ∧
    ((scanBlock 0 (ScanState.mk [] 0) (1, MCPE.inputXMLStreaming)).1 =
      (parseMessage MCPE.inputXMLStreaming 0 0).1) :=
  ⟨rfl,
   c2_streaming_emitted.1 MCPE.inputJSONStreaming 0 0 _ rfl (by decide),
   by decide,
   c2_streaming_emitted.2 1 MCPE.inputXMLStreaming 0 (ScanState.mk [] 0)
     (by decide) (Or.inl rfl) rfl⟩

/-- C3 counterexample: a closed container whose `invoke` tag is never closed
is classified `Complete` by `containsFunctionCalls`, although the claim
requires `Streaming` when the invocation's own closing tag is absent. -/
theorem c3_counterexample :
    (containsFunctionCalls MCPE.inputUnclosedInvoke).isComplete = true ∧
    containsSub MCPE.inputUnclosedInvoke "</invoke>" = false :=
  ⟨rfl, rfl⟩

/-- C3 amended: for XML content (not detected as JSON, no language tag to
strip), the classifier reports `Complete` iff the content contains both
`<function_calls>` and `</function_calls>`; closure of the candidate's own
`invoke` tag is not consulted. -/
theorem c3_container_only_completeness (content : String)
    (hjson : (containsJSONFunctionCalls content).hasFunctionCalls = false)
    (hlang : extractLanguageTag (jsTrim content) = ⟨none, jsTrim content⟩)
    (hne : jsTrim content ≠ "")
    (hfc : containsSub (jsTrim content) "<function_calls>" = true) :
    (containsFunctionCalls content).isComplete =
      containsSub (jsTrim content) "</function_calls>" := by
  unfold containsFunctionCalls
  dsimp only
  rw [hjson]
  rw [if_neg (by simp), if_neg (by simp [hfc]), hlang]
  dsimp only
  rw [if_neg hne]
  rw [if_pos (by simp [hfc])]
  simp [hfc]

/-- C3 witness: the amended statement applied at the counterexample input. -/
theorem c3_witness :
    ((containsJSONFunctionCalls MCPE.inputUnclosedInvoke).hasFunctionCalls = false) ∧
    (extractLanguageTag (jsTrim MCPE.inputUnclosedInvoke) =
      ⟨none, jsTrim MCPE.inputUnclosedInvoke⟩) ∧
    (jsTrim MCPE.inputUnclosedInvoke ≠ "") ∧
    (containsSub (jsTrim MCPE.inputUnclosedInvoke) "<function_calls>" = true) ∧
    ((containsFunctionCalls MCPE.inputUnclosedInvoke).isComplete =
      containsSub (jsTrim MCPE.inputUnclosedInvoke) "</function_calls>") :=
  ⟨rfl, rfl, by decide, rfl,
   c3_container_only_completeness MCPE.inputUnclosedInvoke rfl rfl (by decide) rfl⟩


/-- Appending preserves `allXml`. -/
theorem allXml_append (a b : List DetectedToolCall) :
    allXml (a ++ b) = (allXml a && allXml b) := by
  simp [allXml, List.all_append]

/-- Every call built from an invoke match carries the XML format marker. -/
theorem invokeMatchToCall_format (now c : Nat) (m : InvokeMatch) :
    (invokeMatchToCall now c m).1.format = CallFormat.xml := by
  unfold invokeMatchToCall
  cases m.callId <;> rfl

/-- The id counter never decreases across one invoke match. -/
theorem invokeMatchToCall_counter_le (now c : Nat) (m : InvokeMatch) :
    c ≤ (invokeMatchToCall now c m).2 := by
  unfold invokeMatchToCall
  cases m.callId
  · exact Nat.le_succ c
  · exact Nat.le_refl c

/-- The `parseInvokeBlocks` fold keeps every emitted call in XML format and
never decreases the counter. -/
theorem parseInvokeBlocks_fold_inv (now : Nat) (ms : List InvokeMatch) :
    ∀ (acc : List DetectedToolCall × Nat),
      (allXml acc.1 = true →
        allXml ((ms.foldl (fun acc m =>
          let (call, c') := invokeMatchToCall now acc.2 m
          (acc.1 ++ [call], c')) acc).1) = true) ∧
      acc.2 ≤ (ms.foldl (fun acc m =>
          let (call, c') := invokeMatchToCall now acc.2 m
          (acc.1 ++ [call], c')) acc).2 := by
  induction ms with
  | nil => exact fun acc => ⟨fun h => h, Nat.le_refl _⟩
  | cons m rest ih =>
    intro acc
    rw [List.foldl_cons]
    constructor
    · intro h
      refine ((ih _).1 ?_)
      rw [allXml_append, h]
      simp [allXml, invokeMatchToCall_format]
    · have tail := (ih ((acc.1 ++ [(invokeMatchToCall now acc.2 m).1],
        (invokeMatchToCall now acc.2 m).2) : List DetectedToolCall × Nat)).2
      exact Nat.le_trans (invokeMatchToCall_counter_le now acc.2 m) tail

/-- Every call emitted by `parseInvokeBlocks` is in XML format, and the
counter never decreases. -/
theorem parseInvokeBlocks_inv (content : List Char) (now c : Nat) :
    allXml (parseInvokeBlocks content now c).1 = true ∧
    c ≤ (parseInvokeBlocks content now c).2 := by
  unfold parseInvokeBlocks
  exact ⟨(parseInvokeBlocks_fold_inv now _ ([], c)).1 rfl,
    (parseInvokeBlocks_fold_inv now _ ([], c)).2⟩

/-- The container fold of `parseXMLFormat` preserves both invariants. -/
theorem parseXMLFormat_fold_inv (now : Nat) (contents : List (List Char)) :
    ∀ (acc : List DetectedToolCall × Nat),
      (allXml acc.1 = true →
        allXml ((contents.foldl (fun acc content =>
          let (calls, c') := parseInvokeBlocks content now acc.2
          (acc.1 ++ calls, c')) acc).1) = true) ∧
      acc.2 ≤ (contents.foldl (fun acc content =>
          let (calls, c') := parseInvokeBlocks content now acc.2
          (acc.1 ++ calls, c')) acc).2 := by
  induction contents with
  | nil => exact fun acc => ⟨fun h => h, Nat.le_refl _⟩
  | cons content rest ih =>
    intro acc
    rw [List.foldl_cons]
    constructor
    · intro h
      refine (ih _).1 ?_
      rw [allXml_append, h]
      simpa using (parseInvokeBlocks_inv content now acc.2).1
    · have tail := (ih ((acc.1 ++ (parseInvokeBlocks content now acc.2).1,
        (parseInvokeBlocks content now acc.2).2) : List DetectedToolCall × Nat)).2
      exact Nat.le_trans (parseInvokeBlocks_inv content now acc.2).2 tail

/-- Every call emitted by `parseXMLFormat` is in XML format, and the counter
never decreases. -/
theorem parseXMLFormat_inv (text : String) (now c : Nat) :
    allXml (parseXMLFormat text now c).1 = true ∧
    c ≤ (parseXMLFormat text now c).2 := by
  unfold parseXMLFormat
  dsimp only
  split
  · split
    · exact parseInvokeBlocks_inv _ now c
    · exact ⟨rfl, Nat.le_refl c⟩
  · exact ⟨(parseXMLFormat_fold_inv now _ ([], c)).1 rfl,
      (parseXMLFormat_fold_inv now _ ([], c)).2⟩

/-- C4 amended: the facade runs the XML matcher first and consults the
JSON-Lines matcher only when the XML matcher produced nothing; whenever the
XML matcher produced at least one candidate, the returned list is exactly the
XML matcher's output and contains no JSON-format invocation. -/
theorem c4_xml_shadows_json (text : String) (now c : Nat)
    (h : (parseXMLFormat text now c).1.isEmpty = false) :
    parseMessage text now c = parseXMLFormat text now c ∧
    allXml (parseMessage text now c).1 = true := by
  have hmsg : parseMessage text now c = parseXMLFormat text now c := by
    unfold parseMessage
    dsimp only
    rw [h]
    rfl
  exact ⟨hmsg, by rw [hmsg]; exact (parseXMLFormat_inv text now c).1⟩

/-- C4 counterexample: a snapshot holding both a complete XML invocation and
a complete JSON-Lines invocation of tool `jtool`.  The JSON matcher alone
detects `jtool`, yet `parseMessage` returns only the XML candidate — the
JSON-Lines invocation is not detected because the XML matcher matched. -/
theorem c4_counterexample :
    ((parseJSONFormat MCPE.inputMixed 0 0).1.map (·.toolName) = ["jtool"]) ∧
    ((parseMessage MCPE.inputMixed 0 0).1.map (·.toolName) = ["read_file"]) ∧
    allXml (parseMessage MCPE.inputMixed 0 0).1 = true :=
  ⟨rfl, rfl, rfl⟩

/-- C4 witness: the amended statement applied at the mixed snapshot. -/
theorem c4_witness :
    ((parseXMLFormat MCPE.inputMixed 0 0).1.isEmpty = false) ∧
    (parseMessage MCPE.inputMixed 0 0 = parseXMLFormat MCPE.inputMixed 0 0 ∧
      allXml (parseMessage MCPE.inputMixed 0 0).1 = true) :=
  ⟨rfl, c4_xml_shadows_json MCPE.inputMixed 0 0 rfl⟩

/-- One JSON line never decreases the id counter. -/
theorem jsonLineStep_counter_le (now : Nat) (st : JsonScanState) (line : String) :
    st.counter ≤ (jsonLineStep now st line).counter := by
  unfold jsonLineStep
  dsimp only
  repeat' split
  all_goals first
    | omega
    | (dsimp only [generateId]; omega)

/-- A fold of JSON line steps never decreases the id counter. -/
theorem jsonFold_counter_le (now : Nat) (lines : List String) :
    ∀ st : JsonScanState, st.counter ≤ (lines.foldl (jsonLineStep now) st).counter := by
  induction lines with
  | nil => exact fun st => Nat.le_refl _
  | cons line rest ih =>
    intro st
    exact Nat.le_trans (jsonLineStep_counter_le now st line) (ih _)

/-- The JSON line scan never decreases the id counter. -/
theorem jsonScan_counter_le (text : String) (now c : Nat) :
    c ≤ (jsonScan text now c).counter :=
  jsonFold_counter_le now (jsLines text) ⟨[], none, c⟩

/-- `parseJSONFormat` never decreases the id counter. -/
theorem parseJSONFormat_counter_le (text : String) (now c : Nat) :
    c ≤ (parseJSONFormat text now c).2 := by
  unfold parseJSONFormat
  dsimp only
  have h := jsonScan_counter_le text now c
  split
  · split <;> exact h
  · exact h

/-- `parseMessage` never decreases the id counter. -/
theorem parseMessage_counter_le (text : String) (now c : Nat) :
    c ≤ (parseMessage text now c).2 := by
  unfold parseMessage
  dsimp only
  split
  · exact Nat.le_trans (parseXMLFormat_inv text now c).2
      (parseJSONFormat_counter_le text now _)
  · exact (parseXMLFormat_inv text now c).2

/-- C5 amended: a candidate with no caller-supplied `call_id` is identified
as `tool-call-<timestamp>-<counter>` drawn from the parser's mutable,
never-decreasing id counter — a function of parser history rather than of
(toolName, ordinal position, buffer-source id) — so re-parses of the same
unchanged snapshot draw fresh counter values instead of resolving to the
same identity. -/
theorem c5_counter_based_identity :
    (∀ (now c : Nat) (m : InvokeMatch), m.callId = none →
        (invokeMatchToCall now c m).1.id =
          "tool-call-" ++ natStr now ++ "-" ++ natStr c ∧
        (invokeMatchToCall now c m).2 = c + 1) ∧
    (∀ (text : String) (now c : Nat), c ≤ (parseMessage text now c).2) := by
  constructor
  · intro now c m hm
    unfold invokeMatchToCall
    rw [hm]
    exact ⟨rfl, rfl⟩
  · exact parseMessage_counter_le

/-- C5 counterexample: parsing the same unchanged snapshot twice (threading
the parser's mutable counter, with the same timestamp) assigns two different
identities to the same fallback candidate. -/
theorem c5_counterexample :
    ((parseMessage MCPE.inputNoCallId 0 0).1.map (·.id) = ["tool-call-0-0"]) ∧
    ((parseMessage MCPE.inputNoCallId 0
        (parseMessage MCPE.inputNoCallId 0 0).2).1.map (·.id) = ["tool-call-0-1"]) ∧
    ("tool-call-0-0" : String) ≠ "tool-call-0-1" :=
  ⟨rfl, rfl, by decide⟩

/-- C5 witness: the amended statement applied at a concrete match without a
call id. -/
theorem c5_witness :
    ((InvokeMatch.mk "t" none [] []).callId = none) ∧
    ((invokeMatchToCall 3 4 (InvokeMatch.mk "t" none [] [])).1.id =
        "tool-call-" ++ natStr 3 ++ "-" ++ natStr 4 ∧
      (invokeMatchToCall 3 4 (InvokeMatch.mk "t" none [] [])).2 = 4 + 1) ∧
    (0 ≤ (parseMessage "x" 0 0).2) :=
  ⟨rfl, c5_counter_based_identity.1 3 4 (InvokeMatch.mk "t" none [] []) rfl,
   c5_counter_based_identity.2 "x" 0 0⟩


/-- C6: totality of the engine on malformed input.  An unparseable JSON line
yields `none` from `parseJSONLine`; a brace-initial line that `JSON.parse`
rejects leaves the `parseJSONFormat` loop state untouched (the exception is
caught and the line skipped); a parameter value that is not valid JSON
degrades to the raw string; and `parse` returns normally on every string
(each embedded function is total by construction — every potentially
throwing primitive is modelled with `Option`). -/
theorem c6_total_on_malformed_input :
    (∀ line : String, MCPE.Json.parse (stripLanguageTags (jsTrim line)) = none →
        parseJSONLine line = none) ∧
    (∀ (now : Nat) (st : JsonScanState) (line : String),
        strStartsWith (jsTrim line) "\x7b" = true →
        MCPE.Json.parse (jsTrim line) = none →
        jsonLineStep now st line = st) ∧
    (∀ v : String, MCPE.Json.parse v = none → parseValue v = MCPE.Json.str v) ∧
    (∀ (text : String) (now c : Nat),
        ∃ calls c', parseMessage text now c = (calls, c')) := by
  refine ⟨?_, ?_, ?_, ?_⟩
  · intro line h
    unfold parseJSONLine
    dsimp only
    split_ifs
    · rfl
    · rfl
    · rw [h]
  · intro now st line h1 h2
    unfold jsonLineStep
    dsimp only
    rw [h1]
    rw [if_neg (by simp), h2]
  · intro v h
    unfold parseValue
    rw [h]
  · intro text now c
    exact ⟨(parseMessage text now c).1, (parseMessage text now c).2, rfl⟩

/-- C6 witness: the components applied at concrete malformed fragments. -/
theorem c6_witness :
    (MCPE.Json.parse (stripLanguageTags (jsTrim "\x7boops")) = none) ∧
    (parseJSONLine "\x7boops" = none) ∧
    (strStartsWith (jsTrim "\x7boops") "\x7b" = true) ∧
    (MCPE.Json.parse (jsTrim "\x7boops") = none) ∧
    (jsonLineStep 7 ⟨[], none, 3⟩ "\x7boops" = ⟨[], none, 3⟩) ∧
    (MCPE.Json.parse "/tmp/x" = none) ∧
    (parseValue "/tmp/x" = MCPE.Json.str "/tmp/x") :=
  ⟨rfl, c6_total_on_malformed_input.1 "\x7boops" rfl, rfl, rfl,
   c6_total_on_malformed_input.2.1 7 ⟨[], none, 3⟩ "\x7boops" rfl rfl, rfl,
   c6_total_on_malformed_input.2.2.1 "/tmp/x" rfl⟩

/-! Association-list lemmas for claim C7. -/

/-- `objAssign` stores the assigned value under its key. -/
theorem objLookup_objAssign_same (ps : List (String × MCPE.Json)) (k : String)
    (v : MCPE.Json) : objLookup (objAssign ps k v) k = some v := by
  induction ps with
  | nil => simp [objAssign, objLookup]
  | cons p rest ih =>
    obtain ⟨k0, v0⟩ := p
    by_cases h : k0 = k
    · subst h
      simp [objAssign, objLookup]
    · simp [objAssign, objLookup, h, ih]

/-- `objAssign` leaves other keys untouched. -/
theorem objLookup_objAssign_other (ps : List (String × MCPE.Json)) (k' k : String)
    (v : MCPE.Json) (h : k' ≠ k) :
    objLookup (objAssign ps k' v) k = objLookup ps k := by
  induction ps with
  | nil => simp [objAssign, objLookup, h]
  | cons p rest ih =>
    obtain ⟨a, b⟩ := p
    by_cases ha : a = k'
    · subst ha
      simp [objAssign, objLookup, h]
    · simp [objAssign, objLookup, ha, ih]

/-- `(a :: l).getLast?` through `optOr`. -/
theorem getLast?_cons_optOr {α : Type} (a : α) (l : List α) :
    (a :: l).getLast? = optOr l.getLast? (some a) := by
  induction l generalizing a with
  | nil => rfl
  | cons b l' ih =>
    rw [List.getLast?_cons_cons, ih b]
    cases h : l'.getLast? with
    | none => rfl
    | some x => rfl

/-- A successful lookup means `find?` succeeds. -/
theorem find?_isSome_of_objLookup (ps : List (String × MCPE.Json)) (k : String)
    (v : MCPE.Json) (h : objLookup ps k = some v) :
    (ps.find? (·.1 = k)).isSome = true := by
  induction ps with
  | nil => simp [objLookup] at h
  | cons p rest ih =>
    obtain ⟨k0, v0⟩ := p
    by_cases hk : k0 = k
    · subst hk
      rw [List.find?_cons_of_pos _ (by simp)]
      rfl
    · rw [List.find?_cons_of_neg _ (by simpa using hk)]
      unfold objLookup at h
      rw [if_neg hk] at h
      exact ih h

/-- The first pass of `extractJSONParameters` is a left fold of
`objAssign`s; its lookup is the value of the last `parameter` line for the
key, falling back to the initial map. -/
theorem firstPass_fold_lookup (lines : List String) (k : String) :
    ∀ ps : List (String × MCPE.Json),
      objLookup (lines.foldl
        (fun ps line =>
          match paramLineEntry line with
          | some (k, v) => objAssign ps k v
          | none => ps) ps) k =
      optOr ((((lines.filterMap paramLineEntry).filter (fun p => p.1 = k)).getLast?).map (·.2))
        (objLookup ps k) := by
  induction lines with
  | nil => intro ps; rfl
  | cons line rest ih =>
    intro ps
    rw [List.foldl_cons, List.filterMap_cons]
    cases he : paramLineEntry line with
    | none => exact ih ps
    | some kv =>
      obtain ⟨k', v⟩ := kv
      dsimp only
      rw [ih (objAssign ps k' v), List.filter_cons]
      by_cases hk : k' = k
      · subst hk
        rw [if_pos (by simp), objLookup_objAssign_same, getLast?_cons_optOr]
        cases hF : (((rest.filterMap paramLineEntry).filter
            (fun p => decide (p.1 = k'))).getLast?) with
        | none => rfl
        | some last => rfl
      · rw [if_neg (by simp [hk]), objLookup_objAssign_other ps k' k v hk]

/-- The fallback pass of `extractJSONParameters` never overwrites an
existing key. -/
theorem fallback_preserves_existing (ms : List (String × String)) :
    ∀ (ps : List (String × MCPE.Json)) (k : String) (v : MCPE.Json),
      objLookup ps k = some v →
      objLookup (ms.foldl paramFallbackStep ps) k = some v := by
  induction ms with
  | nil => exact fun ps k v h => h
  | cons kv rest ih =>
    intro ps k v h
    rw [List.foldl_cons]
    refine ih _ k v ?_
    unfold paramFallbackStep
    by_cases hf : (ps.find? (·.1 = kv.1)).isSome = true
    · rw [if_pos hf]
      exact h
    · rw [if_neg hf]
      have hne : kv.1 ≠ k := by
        intro he
        exact hf (he ▸ find?_isSome_of_objLookup ps k v h)
      rw [objLookup_objAssign_other ps kv.1 k _ hne]
      exact h

/-- C7: the three-line JSON-Lines input of scenario 4 is classified as
exactly one complete invocation of tool `t` with call id `"1"`, and its
parameters extract to `x ↦ 5` with `5` a JSON number, not the string `"5"`;
in general, `parameter` entries accumulate in order of appearance with
duplicate keys overwritten (last wins), and the streaming fallback pass adds
only keys not already present. -/
theorem c7_parameter_accumulation :
    ((containsJSONFunctionCalls MCPE.inputJSONLines).hasFunctionCalls = true ∧
     (containsJSONFunctionCalls MCPE.inputJSONLines).isComplete = true ∧
     (containsJSONFunctionCalls MCPE.inputJSONLines).invokeName = some "t" ∧
     (containsJSONFunctionCalls MCPE.inputJSONLines).callId = some "1" ∧
     extractJSONParameters MCPE.inputJSONLines = [("x", MCPE.Json.num 5 0)] ∧
     extractJSONParameters MCPE.inputJSONLines ≠ [("x", MCPE.Json.str "5")]) ∧
    (∀ (lines : List String) (k : String),
        objLookup (extractJSONParamsFirstPass lines) k =
          (((lines.filterMap paramLineEntry).filter (fun p => p.1 = k)).getLast?).map (·.2)) ∧
    (∀ (ms : List (String × String)) (ps : List (String × MCPE.Json)) (k : String)
        (v : MCPE.Json), objLookup ps k = some v →
        objLookup (ms.foldl paramFallbackStep ps) k = some v) := by
  refine ⟨⟨rfl, rfl, rfl, rfl, rfl, ?_⟩, ?_, fallback_preserves_existing⟩
  · intro h
    have h0 : extractJSONParameters MCPE.inputJSONLines =
        [("x", MCPE.Json.num 5 0)] := rfl
    rw [h0] at h
    simp at h
  · intro lines k
    have := firstPass_fold_lookup lines k []
    unfold extractJSONParamsFirstPass
    rw [this]
    cases hF : (((lines.filterMap paramLineEntry).filter (fun p => p.1 = k)).getLast?) with
    | none => rfl
    | some last => rfl

/-- C7 witness: the fallback-preservation component applied at a concrete
parameter map. -/
theorem c7_witness :
    (objLookup [("x", MCPE.Json.num 5 0)] "x" = some (MCPE.Json.num 5 0)) ∧
    (objLookup ([("x", "y")].foldl paramFallbackStep [("x", MCPE.Json.num 5 0)]) "x" =
      some (MCPE.Json.num 5 0)) :=
  ⟨rfl, c7_parameter_accumulation.2.2 [("x", "y")] [("x", MCPE.Json.num 5 0)] "x"
    (MCPE.Json.num 5 0) rfl⟩

/-- C8: the single physical line
`{"type":"function_call_start","name":"t"}{"type":"function_call_end"}` is
split by the JSON-Lines matcher on the `}{` boundary with the braces
re-attached, and is reported as exactly one complete invocation of tool
`t`. -/
theorem c8_concatenated_objects :
    reattachBraces (braceSplitAux MCPE.inputConcatObjects.data.length
        MCPE.inputConcatObjects.data) =
      ["\x7b\"type\":\"function_call_start\",\"name\":\"t\"\x7d",
       "\x7b\"type\":\"function_call_end\"\x7d"] ∧
    (containsJSONFunctionCalls MCPE.inputConcatObjects).hasFunctionCalls = true ∧
    (containsJSONFunctionCalls MCPE.inputConcatObjects).isComplete = true ∧
    (containsJSONFunctionCalls MCPE.inputConcatObjects).hasClosingTags = true ∧
    (containsJSONFunctionCalls MCPE.inputConcatObjects).invokeName = some "t" := by
  refine ⟨rfl, rfl, rfl, rfl, rfl⟩
